import Mathlib

/-!
Verification of the `monoglot-rift` minimal tokenizer
(`src/RIFT_MVP/battle_tested/src/lib.rs` and `.../src/main.rs`).

Rust strings are modelled as `List Char`.  The Rust standard-library string
operations the tokenizer uses (`str::lines`, `str::split_whitespace`,
`char::is_whitespace`, `char::is_alphabetic`, `char::is_numeric`) are embedded
below; `char::is_alphabetic` / `char::is_numeric` are embedded on their ASCII
fragment (the full Unicode `Alphabetic` / `Numeric` tables are not reproduced;
every concrete input considered here is ASCII, where the fragment is exact).
-/

namespace MonoglotRift

/-- Rust `char::is_whitespace`: the Unicode `White_Space` property
(all 25 code points). -/
def rustIsWhitespace (c : Char) : Bool :=
  let n := c.toNat
  (0x9 ≤ n && n ≤ 0xD) || n == 0x20 || n == 0x85 || n == 0xA0 || n == 0x1680 ||
    (0x2000 ≤ n && n ≤ 0x200A) || n == 0x2028 || n == 0x2029 || n == 0x202F ||
    n == 0x205F || n == 0x3000

/-- Rust `char::is_alphabetic`, ASCII fragment (`A`-`Z`, `a`-`z`). -/
def rustIsAlphabetic (c : Char) : Bool :=
  (0x41 ≤ c.toNat && c.toNat ≤ 0x5A) || (0x61 ≤ c.toNat && c.toNat ≤ 0x7A)

/-- Rust `char::is_numeric`, ASCII fragment (`0`-`9`). -/
def rustIsNumeric (c : Char) : Bool :=
  0x30 ≤ c.toNat && c.toNat ≤ 0x39

/-- Accumulator-passing core of `str::split_whitespace`: `acc` holds the
characters of the word currently being scanned, in reverse order. -/
def splitWhitespaceAux : List Char → List Char → List (List Char)
  | [], acc => if acc.isEmpty then [] else [acc.reverse]
  | c :: cs, acc =>
    if rustIsWhitespace c then
      if acc.isEmpty then splitWhitespaceAux cs []
      else acc.reverse :: splitWhitespaceAux cs []
    else splitWhitespaceAux cs (c :: acc)

/-- Rust `str::split_whitespace`, collected into a list: splits on runs of
whitespace, discarding leading and trailing whitespace. -/
def splitWhitespace (l : List Char) : List (List Char) :=
  splitWhitespaceAux l []

/-- The segments of a string separated by the newline character `\n`
(for `k` newlines there are `k + 1` segments, empty segments included). -/
def splitOnNewline : List Char → List (List Char)
  | [] => [[]]
  | c :: cs =>
    if c = '\n' then [] :: splitOnNewline cs
    else
      match splitOnNewline cs with
      | [] => [[c]]
      | s :: ss => (c :: s) :: ss

/-- Remove one trailing carriage return, if present. -/
def stripTrailingCR (l : List Char) : List Char :=
  match l.getLast? with
  | some c => if c = '\r' then l.dropLast else l
  | none => l

/-- Rust `str::lines`: split on `\n`; a line terminated by `\n` has a
trailing `\r` removed (`\r\n` line ending); a final empty segment produced
by a trailing `\n` (or by empty input) yields no line. -/
def rustLines (s : List Char) : List (List Char) :=
  let segs := splitOnNewline s
  match segs.getLast? with
  | some last =>
    if last.isEmpty then segs.dropLast.map stripTrailingCR
    else segs.dropLast.map stripTrailingCR ++ [last]
  | none => []

/-- `TokenType` from the source (identical in `lib.rs` and `main.rs`). -/
inductive TokenType
  | Identifier
  | Literal
  | Operator
  | Keyword
  | Punctuation
  deriving DecidableEq, Repr

/-- `Token` from the source (identical in `lib.rs` and `main.rs`). -/
structure Token where
  kind : TokenType
  value : List Char
  line : Nat
  column : Nat
  deriving DecidableEq, Repr

/-- `ParserError` from the source (identical in `lib.rs` and `main.rs`). -/
inductive ParserError
  | SyntaxError (line : Nat) (column : Nat) (message : List Char)
  | UnexpectedToken (token : List Char)
  deriving DecidableEq, Repr

/-- `RecoveryAction` from the source (identical in `lib.rs` and `main.rs`). -/
inductive RecoveryAction
  | Skip
  | Replace (t : Token)
  | Synchronize (line : Nat)
  deriving DecidableEq, Repr

namespace LibRs

/-- `MinimalParser` from `lib.rs`: a struct with no fields
("Configuration and state can be added here"). -/
structure MinimalParser

/-- `MinimalParser::new` from `lib.rs`. -/
def MinimalParser.new : MinimalParser := {}

/-- `MinimalParser::classify_token` from `lib.rs` (`&self` carries no state
and is omitted): match on the operator set, then the keyword set, then
all-alphabetic, then all-numeric, else `Punctuation`. -/
def MinimalParser.classify_token (token : List Char) : TokenType :=
  if token = ['+'] ∨ token = ['-'] ∨ token = ['*'] ∨ token = ['/'] then
    .Operator
  else if token = ['i', 'f'] ∨ token = ['e', 'l', 's', 'e'] ∨
      token = ['w', 'h', 'i', 'l', 'e'] then
    .Keyword
  else if token.all rustIsAlphabetic then
    .Identifier
  else if token.all rustIsNumeric then
    .Literal
  else
    .Punctuation

/-- The token-building loop of `MinimalParser::parse` in `lib.rs`:
for each (0-based) line of `input.lines().enumerate()`, for each (0-based)
word of `line.split_whitespace().enumerate()`, push a token carrying the
word, its classification, `line_num + 1` and the word index. -/
def MinimalParser.tokensOf (input : List Char) : List Token :=
  (rustLines input).enum.flatMap fun p =>
    (splitWhitespace p.2).enum.map fun q =>
      { kind := MinimalParser.classify_token q.2
        value := q.2
        line := p.1 + 1
        column := q.1 }

/-- `<MinimalParser as Parser>::parse` from `lib.rs`: builds the token list
and unconditionally returns `Ok`. -/
def MinimalParser.parse (_self : MinimalParser) (input : List Char) :
    Except ParserError (List Token) :=
  .ok (MinimalParser.tokensOf input)

/-- `<MinimalParser as Parser>::recover_from_error` from `lib.rs`. -/
def MinimalParser.recover_from_error : ParserError → Option RecoveryAction
  | .SyntaxError line _column _message => some (.Synchronize line)
  | .UnexpectedToken _ => some .Skip

end LibRs

namespace MainRs

/-- `MinimalParser` from `main.rs`: a struct with no fields. -/
structure MinimalParser

/-- `MinimalParser::new` from `main.rs`. -/
def MinimalParser.new : MinimalParser := {}

/-- `MinimalParser::classify_token` from `main.rs`. -/
def MinimalParser.classify_token (token : List Char) : TokenType :=
  if token = ['+'] ∨ token = ['-'] ∨ token = ['*'] ∨ token = ['/'] then
    .Operator
  else if token = ['i', 'f'] ∨ token = ['e', 'l', 's', 'e'] ∨
      token = ['w', 'h', 'i', 'l', 'e'] then
    .Keyword
  else if token.all rustIsAlphabetic then
    .Identifier
  else if token.all rustIsNumeric then
    .Literal
  else
    .Punctuation

/-- `<MinimalParser as Parser>::parse` from `main.rs` (textually the same
loop as the `lib.rs` copy). -/
def MinimalParser.parse (_self : MinimalParser) (input : List Char) :
    Except ParserError (List Token) :=
  .ok ((rustLines input).enum.flatMap fun p =>
    (splitWhitespace p.2).enum.map fun q =>
      { kind := MinimalParser.classify_token q.2
        value := q.2
        line := p.1 + 1
        column := q.1 })

/-- `<MinimalParser as Parser>::recover_from_error` from `main.rs`. -/
def MinimalParser.recover_from_error : ParserError → Option RecoveryAction
  | .SyntaxError line _column _message => some (.Synchronize line)
  | .UnexpectedToken _ => some .Skip

/-- `BattleTestedParser` from `main.rs`: stores its input string. -/
structure BattleTestedParser where
  input : List Char

/-- `BattleTestedParser::new` from `main.rs`. -/
def BattleTestedParser.new (input : List Char) : BattleTestedParser :=
  { input := input }

/-- `BattleTestedParser::classify_token` from `main.rs`. -/
def BattleTestedParser.classify_token (word : List Char) : TokenType :=
  if word = ['+'] ∨ word = ['-'] ∨ word = ['*'] ∨ word = ['/'] then
    .Operator
  else if word = ['i', 'f'] ∨ word = ['e', 'l', 's', 'e'] ∨
      word = ['w', 'h', 'i', 'l', 'e'] then
    .Keyword
  else if word.all rustIsAlphabetic then
    .Identifier
  else if word.all rustIsNumeric then
    .Literal
  else
    .Punctuation

/-- `<BattleTestedParser as Parser>::parse` from `main.rs`: ignores its
`_input` parameter and tokenizes the stored `self.input` with the same loop
(the `Instant` timing and `println!` are side-effect-free on the result and
are not modelled). -/
def BattleTestedParser.parse (self : BattleTestedParser) (_input : List Char) :
    Except ParserError (List Token) :=
  .ok ((rustLines self.input).enum.flatMap fun p =>
    (splitWhitespace p.2).enum.map fun q =>
      { kind := BattleTestedParser.classify_token q.2
        value := q.2
        line := p.1 + 1
        column := q.1 })

/-- `<BattleTestedParser as Parser>::recover_from_error` from `main.rs`. -/
def BattleTestedParser.recover_from_error : ParserError → Option RecoveryAction
  | .SyntaxError line _column _message => some (.Synchronize line)
  | .UnexpectedToken _ => some .Skip

end MainRs

/-! Spec-side definitions, written from the specification's words, to be
compared with the definitions embedded from the source. -/

/-- First-match-wins rule evaluation: try each `(predicate, kind)` rule in
order, fall back to the default kind. -/
def firstMatch : List ((List Char → Bool) × TokenType) → TokenType →
    List Char → TokenType
  | [], dflt, _ => dflt
  | (p, k) :: rules, dflt, w => if p w then k else firstMatch rules dflt w

/-- The classification rules of spec §4.2, in priority order: exact match
against the operator set, exact match against the keyword set,
all-alphabetic, all-numeric. -/
def classifierRules : List ((List Char → Bool) × TokenType) :=
  [ (fun w => decide (w ∈ [['+'], ['-'], ['*'], ['/']]), .Operator),
    (fun w => decide (w ∈ [['i', 'f'], ['e', 'l', 's', 'e'],
      ['w', 'h', 'i', 'l', 'e']]), .Keyword),
    (fun w => w.all rustIsAlphabetic, .Identifier),
    (fun w => w.all rustIsNumeric, .Literal) ]

/-- The classifier as described by spec §4.2: the rules of
`classifierRules` evaluated first-match-wins, with `Punctuation` as the
catch-all. -/
def classifySpec (w : List Char) : TokenType :=
  firstMatch classifierRules .Punctuation w

/-- Spec §8: the number of whitespace-delimited words across all
newline-separated lines of the input. -/
def wordCount (input : List Char) : Nat :=
  ((splitOnNewline input).map fun l => (splitWhitespace l).length).sum

/-- Input scan order on `(line, column)` pairs: line-major, then
word-major within a line. -/
def scanOrder (a b : Nat × Nat) : Prop :=
  a.1 < b.1 ∨ (a.1 = b.1 ∧ a.2 < b.2)

/-- Tokenization by pure newline-separated segments, as spec §4.1 words it:
the `n`-th (1-based) newline-separated segment of the input contributes its
whitespace-split words, in order, as the tokens of line `n`. -/
def tokensBySegments (input : List Char) : List Token :=
  (splitOnNewline input).enum.flatMap fun p =>
    (splitWhitespace p.2).enum.map fun q =>
      { kind := LibRs.MinimalParser.classify_token q.2
        value := q.2
        line := p.1 + 1
        column := q.1 }

/-! Helper lemmas. -/

/-- Membership in `enumFrom`: the index is at least the starting index, and
looking the (offset) index up in the list gives the paired element. -/
theorem mem_enumFrom_getElem? {α : Type} {p : Nat × α} :
    ∀ {l : List α} {n : Nat}, p ∈ l.enumFrom n → n ≤ p.1 ∧ l[p.1 - n]? = some p.2 := by
  intro l
  induction l with
  | nil => intro n h; simp [List.enumFrom] at h
  | cons a l ih =>
    intro n h
    rw [List.enumFrom_cons, List.mem_cons] at h
    rcases h with h | h
    · subst h; simp
    · have hrec := ih h
      refine ⟨by omega, ?_⟩
      have hidx : p.1 - n = (p.1 - (n + 1)) + 1 := by omega
      rw [hidx, List.getElem?_cons_succ]
      exact hrec.2

/-- The first components of `enumFrom` are strictly increasing. -/
theorem enumFrom_pairwise_fst_lt {α : Type} (l : List α) :
    ∀ n : Nat, (l.enumFrom n).Pairwise fun p q => p.1 < q.1 := by
  induction l with
  | nil => intro n; simp
  | cons a l ih =>
    intro n
    rw [List.enumFrom_cons]
    refine List.Pairwise.cons ?_ (ih (n + 1))
    intro q hq
    have := (mem_enumFrom_getElem? hq).1
    omega

/-- Appending one trailing whitespace character does not change the result
of the whitespace split. -/
theorem splitWhitespaceAux_append_ws {c : Char} (hc : rustIsWhitespace c = true) :
    ∀ (xs acc : List Char), splitWhitespaceAux (xs ++ [c]) acc = splitWhitespaceAux xs acc := by
  intro xs
  induction xs with
  | nil =>
    intro acc
    simp only [List.nil_append, splitWhitespaceAux, hc, if_true]
    by_cases h : acc.isEmpty <;> simp [h, splitWhitespaceAux]
  | cons x xs ih =>
    intro acc
    simp only [List.cons_append, splitWhitespaceAux]
    by_cases hx : rustIsWhitespace x <;> by_cases h : acc.isEmpty <;>
      simp [hx, h, ih]

/-- Removing a trailing carriage return does not change the whitespace
split (a carriage return is whitespace). -/
theorem splitWhitespace_stripTrailingCR (l : List Char) :
    splitWhitespace (stripTrailingCR l) = splitWhitespace l := by
  unfold stripTrailingCR
  cases hl : l.getLast? with
  | none => rfl
  | some c =>
    by_cases hc : c = '\r'
    · subst hc
      show splitWhitespace (if ('\r' : Char) = '\r' then l.dropLast else l) = splitWhitespace l
      rw [if_pos rfl]
      have hne : l ≠ [] := by
        intro h0
        rw [h0] at hl
        simp at hl
      have hlast : l.getLast hne = '\r' := by
        have := List.getLast?_eq_getLast l hne
        rw [hl] at this
        exact (Option.some.injEq _ _).mp this.symm
      conv_rhs => rw [← List.dropLast_concat_getLast hne, hlast]
      unfold splitWhitespace
      rw [splitWhitespaceAux_append_ws (by decide)]
    · simp [hc]

/-- `splitOnNewline` never returns the empty list of segments. -/
theorem splitOnNewline_ne_nil (s : List Char) : splitOnNewline s ≠ [] := by
  induction s with
  | nil => simp [splitOnNewline]
  | cons c cs ih =>
    simp only [splitOnNewline]
    by_cases h : c = '\n'
    · simp [h]
    · simp only [h, if_false]
      cases hsp : splitOnNewline cs <;> simp

/-- `enumFrom` commutes with `map`, pairing indices with mapped elements. -/
theorem enumFrom_map_pair {α β : Type} (g : α → β) :
    ∀ (l : List α) (n : Nat),
      (l.map g).enumFrom n = (l.enumFrom n).map fun p => (p.1, g p.2) := by
  intro l
  induction l with
  | nil => intro n; rfl
  | cons a l ih =>
    intro n
    simp only [List.map_cons, List.enumFrom_cons, ih]

/-- `enumFrom` distributes over append, shifting the start index. -/
theorem enumFrom_append_eq {α : Type} :
    ∀ (xs ys : List α) (n : Nat),
      (xs ++ ys).enumFrom n = xs.enumFrom n ++ ys.enumFrom (n + xs.length) := by
  intro xs
  induction xs with
  | nil => intro ys n; simp
  | cons a xs ih =>
    intro ys n
    simp only [List.cons_append, List.enumFrom_cons, ih, List.length_cons]
    have h : n + 1 + xs.length = n + (xs.length + 1) := by omega
    rw [h]

/-- Core bridging lemma: the `str::lines`-based token loop of the source
produces exactly the tokens of the pure newline-separated segments.
(The `\x5cr\x5cn` handling and the dropped trailing empty line of
`str::lines` are invisible to whitespace splitting.) -/
theorem tokensOf_eq_tokensBySegments (input : List Char) :
    LibRs.MinimalParser.tokensOf input = tokensBySegments input := by
  have hmap : ∀ (L : List (List Char)),
      ((L.map stripTrailingCR).enum.flatMap fun p =>
        (splitWhitespace p.2).enum.map fun q =>
          ({ kind := LibRs.MinimalParser.classify_token q.2, value := q.2,
             line := p.1 + 1, column := q.1 } : Token))
      = L.enum.flatMap fun p =>
        (splitWhitespace p.2).enum.map fun q =>
          ({ kind := LibRs.MinimalParser.classify_token q.2, value := q.2,
             line := p.1 + 1, column := q.1 } : Token) := by
    intro L
    rw [List.enum_eq_enumFrom, enumFrom_map_pair, List.flatMap_map,
      List.enum_eq_enumFrom]
    refine List.flatMap_congr ?_
    intro p _
    rw [splitWhitespace_stripTrailingCR]
  rcases List.eq_nil_or_concat (splitOnNewline input) with h | ⟨init, last, hsegs⟩
  · exact absurd h (splitOnNewline_ne_nil input)
  · rw [List.concat_eq_append] at hsegs
    unfold LibRs.MinimalParser.tokensOf tokensBySegments rustLines
    rw [hsegs]
    simp only [List.getLast?_concat, List.dropLast_concat]
    by_cases hlast : last.isEmpty
    · rw [if_pos hlast]
      have hlast' : last = [] := List.isEmpty_iff.mp hlast
      subst hlast'
      rw [hmap init, List.enum_eq_enumFrom, List.enum_eq_enumFrom,
        enumFrom_append_eq, List.flatMap_append]
      simp [splitWhitespace, splitWhitespaceAux, List.enumFrom]
    · rw [if_neg hlast]
      have h1 := hmap init
      rw [List.enum_eq_enumFrom, List.enum_eq_enumFrom] at h1
      rw [List.enum_eq_enumFrom, List.enum_eq_enumFrom,
        enumFrom_append_eq, enumFrom_append_eq,
        List.flatMap_append, List.flatMap_append, List.length_map, h1]

/-- Number of tokens produced equals the number of whitespace-delimited
words across all newline-separated lines. -/
theorem tokensOf_length_eq_wordCount (input : List Char) :
    (LibRs.MinimalParser.tokensOf input).length = wordCount input := by
  rw [tokensOf_eq_tokensBySegments]
  unfold tokensBySegments wordCount
  rw [List.length_flatMap]
  have h : (List.length ∘ fun p : Nat × List Char =>
      (splitWhitespace p.2).enum.map fun q =>
        ({ kind := LibRs.MinimalParser.classify_token q.2, value := q.2,
           line := p.1 + 1, column := q.1 } : Token))
      = fun p : Nat × List Char => (splitWhitespace p.2).length := by
    funext p
    simp [List.enum_eq_enumFrom]
  rw [h, List.enum_eq_enumFrom]
  have h2 : ∀ (L : List (List Char)) (n : Nat),
      (L.enumFrom n).map (fun p => (splitWhitespace p.2).length)
        = L.map fun l => (splitWhitespace l).length := by
    intro L
    induction L with
    | nil => intro n; rfl
    | cons a L ih => intro n; simp only [List.enumFrom_cons, List.map_cons, ih]
  rw [h2]

/-! Claim theorems. -/

/-- C1: for every input string, `MinimalParser::parse` returns `Ok` (never
an error), and on the empty input it returns `Ok` with an empty token
sequence. -/
theorem parse_always_ok_and_empty_ok :
    (∀ input : List Char, ∃ ts, LibRs.MinimalParser.new.parse input = .ok ts) ∧
    LibRs.MinimalParser.new.parse [] = .ok [] :=
  ⟨fun input => ⟨LibRs.MinimalParser.tokensOf input, rfl⟩, rfl⟩

/-- C2: for every non-empty input, `parse` succeeds and the number of
tokens equals the total number of whitespace-delimited words across all
lines of the input. -/
theorem parse_token_count (input : List Char) (_h : input ≠ []) :
    ∃ ts, LibRs.MinimalParser.new.parse input = .ok ts ∧
      ts.length = wordCount input :=
  ⟨LibRs.MinimalParser.tokensOf input, rfl, tokensOf_length_eq_wordCount input⟩

/-- C2 witness: the claim instantiated on the concrete input
`"if x\x20+ 5\x5cnfoo"` (two lines, five words). -/
theorem parse_token_count_witness :
    (['i', 'f', ' ', 'x', ' ', '+', ' ', '5', '\n', 'f', 'o', 'o'] : List Char) ≠ [] ∧
    ∃ ts, LibRs.MinimalParser.new.parse
        ['i', 'f', ' ', 'x', ' ', '+', ' ', '5', '\n', 'f', 'o', 'o'] = .ok ts ∧
      ts.length = wordCount ['i', 'f', ' ', 'x', ' ', '+', ' ', '5', '\n', 'f', 'o', 'o'] :=
  ⟨by decide,
    parse_token_count ['i', 'f', ' ', 'x', ' ', '+', ' ', '5', '\n', 'f', 'o', 'o']
      (by decide)⟩

/-- C5: the five concrete classification examples from spec §8. -/
theorem classify_token_examples :
    LibRs.MinimalParser.classify_token ['+'] = .Operator ∧
    LibRs.MinimalParser.classify_token ['i', 'f'] = .Keyword ∧
    LibRs.MinimalParser.classify_token ['v', 'a', 'r', 'i', 'a', 'b', 'l', 'e'] = .Identifier ∧
    LibRs.MinimalParser.classify_token ['4', '2'] = .Literal ∧
    LibRs.MinimalParser.classify_token ['f', 'o', 'o', '!'] = .Punctuation := by
  decide

/-- C6: `recover_from_error` maps every `SyntaxError` to
`Some(Synchronize(line))` where `line` is the error's line field, every
`UnexpectedToken` to `Some(Skip)`, and never returns `None`. -/
theorem recover_from_error_spec :
    (∀ (l c : Nat) (m : List Char),
      LibRs.MinimalParser.recover_from_error (.SyntaxError l c m)
        = some (.Synchronize l)) ∧
    (∀ t : List Char,
      LibRs.MinimalParser.recover_from_error (.UnexpectedToken t) = some .Skip) ∧
    (∀ e : ParserError, LibRs.MinimalParser.recover_from_error e ≠ none) := by
  refine ⟨fun l c m => rfl, fun t => rfl, fun e => ?_⟩
  cases e <;> simp [LibRs.MinimalParser.recover_from_error]

/-- C6 witness: the two spec §8 recovery examples, concretely. -/
theorem recover_from_error_spec_witness :
    LibRs.MinimalParser.recover_from_error (.SyntaxError 3 5 ['x'])
      = some (.Synchronize 3) ∧
    LibRs.MinimalParser.recover_from_error (.UnexpectedToken ['y']) = some .Skip ∧
    LibRs.MinimalParser.recover_from_error (.UnexpectedToken ['y']) ≠ none :=
  ⟨recover_from_error_spec.1 3 5 ['x'],
    recover_from_error_spec.2.1 ['y'],
    recover_from_error_spec.2.2 (.UnexpectedToken ['y'])⟩

/-- C7: `parse` is deterministic and stateless: any two parser values
applied to structurally equal inputs produce structurally equal results
(the `MinimalParser` struct has no fields, so there is no state to depend
on). -/
theorem parse_deterministic_stateless :
    ∀ (p q : LibRs.MinimalParser) (s t : List Char),
      s = t → p.parse s = q.parse t := by
  intro p q s t h
  cases h
  rfl

/-- C7 witness: two calls on the same concrete input agree. -/
theorem parse_deterministic_stateless_witness :
    LibRs.MinimalParser.new.parse ['a', ' ', 'b']
      = LibRs.MinimalParser.new.parse ['a', ' ', 'b'] :=
  parse_deterministic_stateless LibRs.MinimalParser.new LibRs.MinimalParser.new
    ['a', ' ', 'b'] ['a', ' ', 'b'] rfl

/-- C8: the tokenizer's lines are the newline-separated segments of the
input: the full token sequence equals the one obtained by taking, for the
`n`-th newline-separated segment (numbering from 1), its whitespace-split
words as the tokens of line `n`. -/
theorem parse_lines_are_newline_segments (input : List Char) :
    LibRs.MinimalParser.tokensOf input = tokensBySegments input :=
  tokensOf_eq_tokensBySegments input

/-- C9: the three tokenizer implementations are extensionally equal: on
every input `s` (and every ignored argument `t` for the battle-tested
variant, which tokenizes its stored input) all return `Ok` of the same
token sequence. -/
theorem parsers_extensionally_equal :
    ∀ s t : List Char, ∃ ts,
      LibRs.MinimalParser.new.parse s = .ok ts ∧
      MainRs.MinimalParser.new.parse s = .ok ts ∧
      (MainRs.BattleTestedParser.new s).parse t = .ok ts :=
  fun s _t => ⟨LibRs.MinimalParser.tokensOf s, rfl, rfl, rfl⟩

/-- C10: both copies of `classify_token` send the empty string to
`Identifier` (the all-alphabetic check is vacuously true on no
characters). -/
theorem classify_token_empty_identifier :
    LibRs.MinimalParser.classify_token [] = .Identifier ∧
    MainRs.MinimalParser.classify_token [] = .Identifier ∧
    MainRs.BattleTestedParser.classify_token [] = .Identifier := by
  decide

/-- C3: every produced token has `line ≥ 1`; `line` is the 1-based index of
the input line the word came from and `column` the 0-based index of the
word within that line (looking the token's `line - 1` and `column` up in
the split input recovers its value); and the token sequence is strictly in
input scan order (line-major, then word-major). -/
theorem token_position_invariants (input : List Char) :
    (∀ t ∈ LibRs.MinimalParser.tokensOf input,
        1 ≤ t.line ∧
        ∃ ln, (rustLines input)[t.line - 1]? = some ln ∧
          (splitWhitespace ln)[t.column]? = some t.value) ∧
    ((LibRs.MinimalParser.tokensOf input).map fun t => (t.line, t.column)).Pairwise
      scanOrder := by
  constructor
  · intro t ht
    unfold LibRs.MinimalParser.tokensOf at ht
    rw [List.mem_flatMap] at ht
    obtain ⟨p, hp, ht⟩ := ht
    rw [List.mem_map] at ht
    obtain ⟨q, hq, rfl⟩ := ht
    rw [List.enum_eq_enumFrom] at hp hq
    have hp' := mem_enumFrom_getElem? hp
    have hq' := mem_enumFrom_getElem? hq
    simp only [Nat.sub_zero] at hp' hq'
    refine ⟨?_, p.2, ?_, ?_⟩
    · show 1 ≤ p.1 + 1
      omega
    · simpa using hp'.2
    · simpa using hq'.2
  · have hmap : ((LibRs.MinimalParser.tokensOf input).map fun t => (t.line, t.column))
        = (rustLines input).enum.flatMap fun p =>
            (splitWhitespace p.2).enum.map fun q => (p.1 + 1, q.1) := by
      unfold LibRs.MinimalParser.tokensOf
      rw [List.map_flatMap]
      refine List.flatMap_congr ?_
      intro p _
      rw [List.map_map]
      rfl
    rw [hmap, List.pairwise_flatMap]
    constructor
    · intro p _
      rw [List.pairwise_map]
      have hfst : ((splitWhitespace p.2).enum).Pairwise fun q r => q.1 < r.1 := by
        rw [List.enum_eq_enumFrom]
        exact enumFrom_pairwise_fst_lt (splitWhitespace p.2) 0
      exact hfst.imp fun h => Or.inr ⟨rfl, h⟩
    · have h0 := enumFrom_pairwise_fst_lt (rustLines input) 0
      rw [← List.enum_eq_enumFrom] at h0
      refine h0.imp ?_
      intro p p' hpp' x hx y hy
      rw [List.mem_map] at hx hy
      obtain ⟨qx, _, rfl⟩ := hx
      obtain ⟨qy, _, rfl⟩ := hy
      exact Or.inl (by omega)

/-- C3 witness: the invariants instantiated on the input
`"a b\x5cnc"` at the token for the word `c` (line 2, column 0). -/
theorem token_position_invariants_witness :
    1 ≤ (⟨.Identifier, ['c'], 2, 0⟩ : Token).line ∧
    ∃ ln, (rustLines ['a', ' ', 'b', '\n', 'c'])[(⟨.Identifier, ['c'], 2, 0⟩ : Token).line - 1]?
        = some ln ∧
      (splitWhitespace ln)[(⟨.Identifier, ['c'], 2, 0⟩ : Token).column]?
        = some (⟨.Identifier, ['c'], 2, 0⟩ : Token).value :=
  (token_position_invariants ['a', ' ', 'b', '\n', 'c']).1
    ⟨.Identifier, ['c'], 2, 0⟩ (by decide)

/-- C4: on every non-empty word, `classify_token` computes exactly the
first-match-wins rule table of spec §4.2 (operator set, then keyword set,
then all-alphabetic, then all-numeric, else `Punctuation`). -/
theorem classify_token_eq_spec (w : List Char) (_h : w ≠ []) :
    LibRs.MinimalParser.classify_token w = classifySpec w := by
  simp only [classifySpec, classifierRules, firstMatch,
    LibRs.MinimalParser.classify_token, decide_eq_true_eq, List.mem_cons,
    List.not_mem_nil, or_false]

/-- C4 witness: the agreement instantiated on the concrete word `x`. -/
theorem classify_token_eq_spec_witness :
    (['x'] : List Char) ≠ [] ∧
    LibRs.MinimalParser.classify_token ['x'] = classifySpec ['x'] :=
  ⟨by decide, classify_token_eq_spec ['x'] (by decide)⟩

end MonoglotRift
